import Mathlib

/-!
Verification of `fix-ts-errors.py`, a maintenance script that parses a
TypeScript compiler diagnostic log and mechanically patches source files to
silence `TS6133` ("declared but never read") diagnostics.

The Python source is shallowly embedded: text is modelled as `List Char`
(a log is a list of newline-stripped lines, matching how `for line in f`
together with `.` never matching a newline behaves), Python `int` indices
as `Int` with Python's negative-index semantics made explicit, and the
filesystem as an association list from path to the file's list of lines.
Each regular expression of the source is embedded by its exact matching
semantics on the pattern in question (leftmost match, greedy character
classes, backtracking where it can change the outcome is noted case by
case in the doc comments).
-/

namespace FixTs

/-- Python `\d`: the ASCII decimal digits, `Char.isDigit`. -/
abbrev isDig (c : Char) : Bool := c.isDigit

/-- One step of the regex line grammar: expect the literal `lit` and return
the remainder, `none` when `lit` is not a prefix. -/
def expectLit (lit cs : List Char) : Option (List Char) :=
  if lit.isPrefixOf cs then some (cs.drop lit.length) else none

/-- One step of the regex line grammar: `(\d+)` followed by a non-digit
literal, i.e. the maximal nonempty run of digits (greedy `\d+`; reducing the
run on backtracking leaves a digit next, never the required literal, so the
maximal run is exact). Returns the digits and the remainder. -/
def expectDigits (cs : List Char) : Option (List Char × List Char) :=
  if cs.takeWhile isDig = [] then none
  else some (cs.takeWhile isDig, cs.dropWhile isDig)

/-- The raw capture groups of `(.*?)\((\d+),(\d+)\): error (TS\d+): (.*)`
at one candidate start of the `\(`: the digit substrings are kept so that the
`int()` conversion of the source is a separate, observable step. -/
structure RawDiag where
  file : List Char
  lineDigits : List Char
  colDigits : List Char
  codeDigits : List Char
  message : List Char
deriving DecidableEq

/-- Try the tail of the pattern `\((\d+),(\d+)\): error (TS\d+): (.*)` at the
start of `cs` (the position right after the lazy `(.*?)` group): an opening
parenthesis, digits, a comma, digits, the literal `): error TS`, digits, the
literal `: `, and the message is the whole remainder (`.` does not match a
newline, and lines are stored newline-stripped, so greedy `(.*)` takes
everything left). -/
def tryAt (cs : List Char) : Option (List Char × List Char × List Char × List Char) := do
  let cs₁ ← expectLit ['('] cs
  let (d₁, cs₂) ← expectDigits cs₁
  let cs₃ ← expectLit [','] cs₂
  let (d₂, cs₄) ← expectDigits cs₃
  let cs₅ ← expectLit "): error TS".data cs₄
  let (d₃, cs₆) ← expectDigits cs₅
  let cs₇ ← expectLit ": ".data cs₆
  pure (d₁, d₂, d₃, cs₇)

/-- `re.match(r'(.*?)\((\d+),(\d+)\): error (TS\d+): (.*)', line)`: the lazy
`(.*?)` tries file-name prefixes shortest first; at each candidate split the
rest of the pattern matches deterministically (`tryAt`), so the first
success wins. `pre` is the reversed prefix consumed so far. At the empty
remainder `tryAt` could only fail (no `(` is left), so that case is `none`
directly. -/
def scanLine (pre : List Char) : List Char → Option RawDiag
  | [] => none
  | c :: rest' =>
    match tryAt (c :: rest') with
    | some (d₁, d₂, d₃, msg) => some ⟨pre.reverse, d₁, d₂, d₃, msg⟩
    | none => scanLine (c :: pre) rest'

/-- Python `int()` on a string of decimal digits. -/
def digitsToNat (ds : List Char) : Nat :=
  ds.foldl (fun n c => 10 * n + (c.toNat - 48)) 0

/-- The dictionary `parse_errors` appends per matching line: file, line and
column as integers (`int(line_num)`, `int(col)`), the error code as the
matched string `TS<digits>`, and the message text. -/
structure DiagnosticRecord where
  file : List Char
  line : Nat
  col : Nat
  code : List Char
  message : List Char
deriving DecidableEq

/-- The record built from the raw capture groups, with the source's `int()`
conversions applied and the code stored as the matched `TS…` string. -/
def toRec (raw : RawDiag) : DiagnosticRecord :=
  ⟨raw.file, digitsToNat raw.lineDigits, digitsToNat raw.colDigits,
   'T' :: 'S' :: raw.codeDigits, raw.message⟩

/-- The raw regex match of one log line (`re.match` anchors at the start). -/
def parseLineRaw (l : List Char) : Option RawDiag :=
  scanLine [] l

/-- One log line parsed to a `DiagnosticRecord`, `none` when the line does
not match the grammar. -/
def parseLine (l : List Char) : Option DiagnosticRecord :=
  (parseLineRaw l).map toRec

/-- `parse_errors`: every line matching the grammar contributes exactly one
record, in log order; non-matching lines are silently skipped. -/
def parse_errors (log : List (List Char)) : List DiagnosticRecord :=
  log.filterMap parseLine

/-- Reformat a record using the line grammar
`<file>(<line>,<col>): error <code>: <message>`, numbers printed in
canonical decimal. -/
def formatRec (r : DiagnosticRecord) : List Char :=
  r.file ++ '(' :: (Nat.toDigits 10 r.line ++ ',' :: (Nat.toDigits 10 r.col ++
    "): error ".data ++ r.code ++ ": ".data ++ r.message))

/-! ### The unused-identifier fixer (`fix_unused_imports`) -/

/-- Python `\s` on its default (ASCII-relevant) whitespace characters. -/
def pyIsSpace (c : Char) : Bool :=
  c == ' ' || c == '\t' || c == '\n' || c == '\r' || c == '\x0b' || c == '\x0c'

/-- Python `str.strip()`: whitespace removed from both ends. -/
def pyStrip (cs : List Char) : List Char :=
  ((cs.dropWhile pyIsSpace).reverse.dropWhile pyIsSpace).reverse

/-- Python `str.split(',')`: split at every comma, keeping empty pieces
(`"".split(',')` is `['']`). -/
def splitComma : List Char → List (List Char)
  | [] => [[]]
  | c :: rest =>
    if c = ',' then [] :: splitComma rest
    else
      match splitComma rest with
      | [] => [[c]]
      | g :: gs => (c :: g) :: gs

/-- `re.search(r'\{([^}]+)\}', line)`, the first capture group: the leftmost
`{` from which a nonempty run of non-`}` characters is followed by `}`.
Greedy `[^}]+` stops exactly at the first `}` after the opener (shrinking it
on backtracking leaves a non-`}` next, never the required `}`), and an
opener directly followed by `}` fails there, so the search moves on. -/
def braceGroup : List Char → Option (List Char)
  | [] => none
  | c :: rest =>
    if c = '\x7b' then
      match rest.dropWhile (fun x => !(x == '\x7d')) with
      | _ :: _ =>
        if rest.takeWhile (fun x => !(x == '\x7d')) = [] then braceGroup rest
        else some (rest.takeWhile (fun x => !(x == '\x7d')))
      | [] => braceGroup rest
    else braceGroup rest

/-- The scan of `re.sub(r'\{[^}]+\}', repl, line)`: every non-overlapping
occurrence of a brace group (leftmost first, scanning resumes right after
each match) is replaced by `repl`. The first argument is fuel, kept at least
the remaining text's length by every call; each step consumes at least one
character, so the fuel-exhausted case is never reached from `braceSub`. The
fuel keeps the recursion structural (the post-match remainder is a deep
suffix, not an immediate tail). -/
def braceSubAux (repl : List Char) : Nat → List Char → List Char
  | 0, l => l
  | _ + 1, [] => []
  | f + 1, c :: cs =>
    if c = '\x7b' then
      match cs.dropWhile (fun x => !(x == '\x7d')) with
      | _ :: tail =>
        if cs.takeWhile (fun x => !(x == '\x7d')) = [] then c :: braceSubAux repl f cs
        else repl ++ braceSubAux repl f tail
      | [] => c :: braceSubAux repl f cs
    else c :: braceSubAux repl f cs

/-- `re.sub(r'\{[^}]+\}', repl, line)`. The replacement text is inserted
literally; Python would read backslash escapes in it, so this models the
source faithfully whenever the rebuilt import list contains no backslash
(true of every use below). -/
def braceSub (repl l : List Char) : List Char := braceSubAux repl l.length l

/-- `re.search(r"'([^']+)' is declared but", message)`, the capture group:
the leftmost quote from which a nonempty run of non-quote characters reaches
a closing quote directly followed by the literal ` is declared but`. As with
`braceGroup`, greediness of `[^']+` leaves no backtracking freedom, so on a
failed literal the search simply restarts one position further on. -/
def extractVar : List Char → Option (List Char)
  | [] => none
  | c :: rest =>
    if c = '\'' then
      match rest.dropWhile (fun x => !(x == '\'')) with
      | _ :: tail =>
        if rest.takeWhile (fun x => !(x == '\'')) = [] then extractVar rest
        else if " is declared but".data.isPrefixOf tail then
          some (rest.takeWhile (fun x => !(x == '\'')))
        else extractVar rest
      | [] => extractVar rest
    else extractVar rest

/-- Regex `\s+` followed by the continuation `k`: one or more whitespace
characters, then `k` on the remainder (all split points are tried, which is
exactly what greedy-with-backtracking recognises). -/
def wsPlus (k : List Char → Bool) : List Char → Bool
  | [] => false
  | c :: rest => pyIsSpace c && (k rest || wsPlus k rest)

/-- The pattern `import\s+<v>\s+from` (with `re.escape(v)`, so `v` is a
literal) anchored at the start of `cs`. -/
def impMatchAt (v : List Char) (cs : List Char) : Bool :=
  "import".data.isPrefixOf cs &&
    wsPlus (fun r => v.isPrefixOf r &&
      wsPlus (fun r2 => "from".data.isPrefixOf r2) (r.drop v.length)) (cs.drop 6)

/-- `re.search(rf'import\s+{re.escape(var_name)}\s+from', line)`: the pattern
tried at every start position. -/
def impSearch (v : List Char) : List Char → Bool
  | [] => false
  | c :: rest => impMatchAt v (c :: rest) || impSearch v rest

/-- Regex `\w` (ASCII: the source files' identifiers are ASCII). -/
def isWordChar (c : Char) : Bool := c.isAlphanum || c == '_'

/-- Word-character test across a string edge: out of range counts as
non-word, as `\b` specifies. -/
def isWordOpt : Option Char → Bool
  | none => false
  | some c => isWordChar c

/-- The tail `<v>\b` of the declaration pattern at `r`: the literal name and
then a word boundary, i.e. the word-ness of the name's last character (for
an empty name: of the whitespace just consumed, non-word either way) differs
from that of the following character. -/
def declNameAt (v : List Char) (r : List Char) : Bool :=
  v.isPrefixOf r && (isWordOpt v.getLast? != isWordOpt (r.drop v.length).head?)

/-- The pattern `\b(const|let|var)\s+<v>\b` anchored at `cs`, with `prev` the
character just before (the `\b` holds iff it is absent or non-word, since
the alternation's first character is a word character). -/
def declMatchAt (v : List Char) (prev : Option Char) (cs : List Char) : Bool :=
  (match prev with | none => true | some c => !isWordChar c) &&
    (("const".data.isPrefixOf cs && wsPlus (declNameAt v) (cs.drop 5))
      || ("let".data.isPrefixOf cs && wsPlus (declNameAt v) (cs.drop 3))
      || ("var".data.isPrefixOf cs && wsPlus (declNameAt v) (cs.drop 3)))

/-- `declMatchAt` tried at every start position, tracking the previous
character for the leading `\b`. -/
def declSearchAux (v : List Char) (prev : Option Char) : List Char → Bool
  | [] => false
  | c :: rest => declMatchAt v prev (c :: rest) || declSearchAux v (some c) rest

/-- `re.search(rf'\b(const|let|var)\s+({re.escape(var_name)})\b', line)`. -/
def declSearch (v l : List Char) : Bool := declSearchAux v none l

/-- Python substring containment `pat in line`. -/
def hasSub (pat : List Char) : List Char → Bool
  | [] => pat.isEmpty
  | c :: rest => pat.isPrefixOf (c :: rest) || hasSub pat rest

/-- `[i.strip() for i in import_match.group(1).split(',')]`. -/
def importNames (g : List Char) : List (List Char) := (splitComma g).map pyStrip

/-- One unused-variable entry: `{'line': error['line'], 'var': var_name}`. -/
structure Entry where
  line : Nat
  var : List Char
deriving DecidableEq

/-- The per-line edit logic of `fix_unused_imports` (source lines 74-113)
applied to one buffer line for one reported identifier: returns the
(possibly rewritten) line and the number of edits counted (0 or 1).
Branches, in source order: a line containing `import` with both braces is a
named-import list (rebuild or blank it; a line with braces but no brace-group
match falls through with no edit and never reaches the default-import
branch); otherwise a default import `import <v> from` blanks the line;
otherwise a `(const|let|var) <v>` declaration is commented out with `// `
unless the line has a `{` or `[` (ambiguous destructuring, skipped). -/
def processLine (line v : List Char) : List Char × Nat :=
  if hasSub "import".data line then
    if line.contains '\x7b' && line.contains '\x7d' then
      match braceGroup line with
      | some g =>
        if v ∈ importNames g then
          if (importNames g).erase v = [] then ([], 1)
          else
            (braceSub ('\x7b' :: ' ' ::
              (List.intercalate ", ".data ((importNames g).erase v) ++ [' ', '\x7d'])) line, 1)
        else (line, 0)
      | none => (line, 0)
    else if impSearch v line then ([], 1)
    else (line, 0)
  else if declSearch v line then
    if line.contains '\x7b' || line.contains '[' then (line, 0)
    else ("// ".data ++ line, 1)
  else (line, 0)

/-- Python list subscript `l[i]` with its negative-index semantics: `none`
models the `IndexError`. -/
def pyGet {α : Type} (l : List α) (i : Int) : Option α :=
  if 0 ≤ i then l.get? i.toNat
  else if (-i).toNat ≤ l.length then l.get? (l.length - (-i).toNat)
  else none

/-- The list position a Python subscript assignment `l[i] = x` writes,
given the list's length. -/
def pySetIdx (n : Nat) (i : Int) : Nat :=
  if 0 ≤ i then i.toNat else n - (-i).toNat

/-- Python `l[i] = x` (only reached where the same subscript just read
successfully, so the out-of-range `IndexError` of assignment cannot occur). -/
def pySet {α : Type} (l : List α) (i : Int) (x : α) : List α :=
  l.set (pySetIdx l.length i) x

/-- The range check `if line_idx >= len(lines): continue` (source line 69):
the entry is skipped exactly when `line - 1 >= len(lines)` as Python
integers. -/
def rangeSkips (buf : List (List Char)) (e : Entry) : Bool :=
  decide ((buf.length : Int) ≤ (e.line : Int) - 1)

/-- Processing of one entry against the buffer (source lines 65-113): skip
when the range check fires; otherwise read `lines[line_idx]` (an entry with
line number 0 reads index `-1`; on an empty buffer that raises, modelled by
`none`), apply `processLine`, and write the rewritten line back at the same
index when an edit was made. Returns the buffer and the edits added. -/
def applyEntry (buf : List (List Char)) (e : Entry) : Option (List (List Char) × Nat) :=
  if rangeSkips buf e then some (buf, 0)
  else
    match pyGet buf ((e.line : Int) - 1) with
    | none => none
    | some line =>
      if (processLine line e.var).2 = 0 then some (buf, 0)
      else some (pySet buf ((e.line : Int) - 1) (processLine line e.var).1,
        (processLine line e.var).2)

/-- The body of `applyEntry` once the subscript has been resolved to the
list position `j`: the common form that an in-range positive line number and
the line number `0` on a nonempty buffer both reduce to. -/
def entryCore (buf : List (List Char)) (j : Nat) (v : List Char) :
    Option (List (List Char) × Nat) :=
  (buf.get? j).map fun line =>
    if (processLine line v).2 = 0 then (buf, 0)
    else (buf.set j (processLine line v).1, (processLine line v).2)

/-- The descending comparison used to sort a file's entries. -/
def entryGE (a b : Entry) : Prop := b.line ≤ a.line

instance : DecidableRel entryGE := fun a b => Nat.decLe b.line a.line

instance : IsTotal Entry entryGE := ⟨fun a b => le_total b.line a.line⟩

instance : IsTrans Entry entryGE := ⟨fun _ _ _ h₁ h₂ => le_trans h₂ h₁⟩

/-- `unused_vars.sort(key=lambda x: x['line'], reverse=True)` (source line
62): Python's sort is stable, and the stable descending sort of a list is
computed by insertion sort under `entryGE` (it inserts each element after
the already-placed elements of equal key). -/
def sortDesc (es : List Entry) : List Entry := List.insertionSort entryGE es

/-- The per-file loop over the sorted entries (source lines 65-113),
threading the buffer, the `modified` flag and the running `fixed_count`
delta; `(none, k)` models an exception escaping the loop with `k` edits
already counted. -/
def runEntries : List (List Char) → List Entry → Bool → Nat →
    Option (List (List Char) × Bool) × Nat
  | buf, [], m, cnt => (some (buf, m), cnt)
  | buf, e :: es, m, cnt =>
    match applyEntry buf e with
    | none => (none, cnt)
    | some (buf₂, d) => runEntries buf₂ es (m || decide (0 < d)) (cnt + d)

/-- The filesystem: resolved file path to the file's lines (`readlines`).
Path resolution against the fixed project root is a fixed injective prefix,
so paths stand for their resolved form. -/
abbrev Path := List Char

abbrev FS := List (Path × List (List Char))

/-- `full_path.exists()` / `open(full_path).readlines()`. -/
def lookupFS : FS → Path → Option (List (List Char))
  | [], _ => none
  | (q, c) :: rest, p => if q = p then some c else lookupFS rest p

/-- `open(full_path, 'w'); f.writelines(lines)`: overwrite the file. -/
def updateFS : FS → Path → List (List Char) → FS
  | [], _, _ => []
  | (q, c) :: rest, p, b => if q = p then (q, b) :: rest else (q, c) :: updateFS rest p b

/-- `print(f"Error fixing {filepath}: {e}")` (source line 120): the one
exception the model can raise is the subscript `IndexError`, whose Python
text is `list index out of range`. -/
def errMsg (p : Path) : List Char :=
  "Error fixing ".data ++ p ++ ": list index out of range".data

/-- The outcome of one file of the fixer's loop. -/
structure OneResult where
  fs : FS
  count : Nat
  wrote : Bool
  logs : List (List Char)
deriving DecidableEq

/-- One iteration of `for filepath, unused_vars in files_to_fix.items()`
(source lines 52-120): a missing file is skipped; an exception is caught,
logged, and leaves the filesystem untouched while keeping the edits already
counted; otherwise the buffer is written back iff `modified` was set. -/
def processOneFile (fs : FS) (p : Path) (es : List Entry) : OneResult :=
  match lookupFS fs p with
  | none => ⟨fs, 0, false, []⟩
  | some buf =>
    match runEntries buf (sortDesc es) false 0 with
    | (none, k) => ⟨fs, k, false, [errMsg p]⟩
    | (some (buf₂, m), k) =>
      if m then ⟨updateFS fs p buf₂, k, true, []⟩ else ⟨fs, k, false, []⟩

/-- The total outcome of the fixer: final filesystem, `fixed_count`, and the
error messages printed along the way. -/
structure FixResult where
  fs : FS
  count : Nat
  logs : List (List Char)
deriving DecidableEq

/-- The fixer's file loop: each file's count and logs accumulate, and the
filesystem threads through. -/
def fixFiles : FS → List (Path × List Entry) → FixResult
  | fs, [] => ⟨fs, 0, []⟩
  | fs, (p, es) :: rest =>
    let r := processOneFile fs p es
    let r₂ := fixFiles r.fs rest
    ⟨r₂.fs, r.count + r₂.count, r.logs ++ r₂.logs⟩

/-- Appending to `files_to_fix[error['file']]`: a `defaultdict` keeps keys in
first-appearance order and each key's list in insertion order. -/
def addEntry : List (Path × List Entry) → Path → Entry → List (Path × List Entry)
  | [], p, e => [(p, [e])]
  | (q, es) :: rest, p, e =>
    if q = p then (q, es ++ [e]) :: rest else (q, es) :: addEntry rest p e

/-- The filtering pass of `fix_unused_imports` (source lines 40-49): keep
`TS6133` records whose message yields an identifier, grouped by file. -/
def groupEntries (rs : List DiagnosticRecord) : List (Path × List Entry) :=
  rs.foldl (fun acc r =>
    if r.code = "TS6133".data then
      match extractVar r.message with
      | some v => addEntry acc r.file ⟨r.line, v⟩
      | none => acc
    else acc) []

/-- `fix_unused_imports` over a modelled filesystem: group the diagnostics,
then run the per-file loop. -/
def fix_unused_imports (fs : FS) (errors : List DiagnosticRecord) : FixResult :=
  fixFiles fs (groupEntries errors)

/-! ### Soundness of the line-grammar scan -/

theorem isPrefixOf_eq_append : ∀ (lit cs : List Char), lit.isPrefixOf cs = true →
    cs = lit ++ cs.drop lit.length
  | [], cs, _ => by simp
  | a :: as, [], h => by simp [List.isPrefixOf] at h
  | a :: as, b :: bs, h => by
    simp only [List.isPrefixOf, Bool.and_eq_true, beq_iff_eq] at h
    obtain ⟨rfl, h2⟩ := h
    simpa using isPrefixOf_eq_append as bs h2

theorem expectLit_sound {lit cs r : List Char} (h : expectLit lit cs = some r) :
    cs = lit ++ r := by
  unfold expectLit at h
  split at h
  · exact (Option.some.inj h) ▸ isPrefixOf_eq_append _ _ (by assumption)
  · exact absurd h (by simp)

theorem expectDigits_sound {cs d r : List Char} (h : expectDigits cs = some (d, r)) :
    cs = d ++ r := by
  unfold expectDigits at h
  split at h
  · exact absurd h (by simp)
  · simp only [Option.some.injEq, Prod.mk.injEq] at h
    obtain ⟨rfl, rfl⟩ := h
    exact (List.takeWhile_append_dropWhile isDig cs).symm

theorem tryAt_sound {cs d₁ d₂ d₃ msg : List Char}
    (h : tryAt cs = some (d₁, d₂, d₃, msg)) :
    cs = '(' :: (d₁ ++ ',' :: (d₂ ++ "): error TS".data ++ d₃ ++ ": ".data ++ msg)) := by
  unfold tryAt at h
  simp only [bind, Option.bind_eq_some] at h
  obtain ⟨cs₁, h1, p₁, h2, cs₃, h3, p₂, h4, cs₅, h5, p₃, h6, cs₇, h7, h8⟩ := h
  obtain ⟨d₁', cs₂⟩ := p₁
  obtain ⟨d₂', cs₄⟩ := p₂
  obtain ⟨d₃', cs₆⟩ := p₃
  simp only [Option.pure_def, Option.some.injEq, Prod.mk.injEq] at h8
  obtain ⟨rfl, rfl, rfl, rfl⟩ := h8
  have e1 := expectLit_sound h1
  have e2 := expectDigits_sound h2
  have e3 := expectLit_sound h3
  have e4 := expectDigits_sound h4
  have e5 := expectLit_sound h5
  have e6 := expectDigits_sound h6
  have e7 := expectLit_sound h7
  subst e1 e2 e3 e4 e5 e6 e7
  simp

theorem scanLine_sound : ∀ (rest pre : List Char) (raw : RawDiag),
    scanLine pre rest = some raw →
    pre.reverse ++ rest = raw.file ++ '(' :: (raw.lineDigits ++ ',' ::
      (raw.colDigits ++ "): error TS".data ++ raw.codeDigits ++ ": ".data ++ raw.message))
  | [], pre, raw, h => by simp [scanLine] at h
  | c :: rest', pre, raw, h => by
    rw [scanLine] at h
    cases htry : tryAt (c :: rest') with
    | some r =>
      rw [htry] at h
      obtain ⟨d₁, d₂, d₃, msg⟩ := r
      cases h
      simpa using congrArg (pre.reverse ++ ·) (tryAt_sound htry)
    | none =>
      rw [htry] at h
      have ih := scanLine_sound rest' (c :: pre) raw h
      simpa using ih

/-! ### Helper lemmas about one entry and the per-file loop -/

theorem rangeSkips_iff (buf : List (List Char)) (e : Entry) :
    rangeSkips buf e = true ↔ buf.length < e.line := by
  simp only [rangeSkips, decide_eq_true_eq]
  omega

theorem pyGet_natCast (l : List (List Char)) (n : Nat) : pyGet l (n : Int) = l.get? n := by
  simp [pyGet]

theorem pyGet_neg_one (l : List (List Char)) (hlen : 1 ≤ l.length) :
    pyGet l (-1) = l.get? (l.length - 1) := by
  rw [pyGet, if_neg (by omega), if_pos (by simpa using hlen)]
  norm_num

theorem pySetIdx_natCast (n m : Nat) : pySetIdx n (m : Int) = m := by
  simp [pySetIdx]

theorem pySetIdx_neg_one (n : Nat) : pySetIdx n (-1) = n - 1 := by
  rw [pySetIdx, if_neg (by omega)]
  norm_num

theorem applyEntry_pos (buf : List (List Char)) (e : Entry) (h1 : 1 ≤ e.line)
    (h2 : e.line ≤ buf.length) :
    applyEntry buf e = entryCore buf (e.line - 1) e.var := by
  have hskip : rangeSkips buf e = false := by
    simp only [rangeSkips, decide_eq_false_iff_not, not_le]
    omega
  have hidx : (e.line : Int) - 1 = ((e.line - 1 : Nat) : Int) := by omega
  unfold applyEntry entryCore
  rw [hskip, hidx, pyGet_natCast]
  cases buf.get? (e.line - 1) with
  | none => simp
  | some line =>
    by_cases hd : (processLine line e.var).2 = 0 <;>
      simp [hd, pySet, pySetIdx_natCast]

theorem applyEntry_zero (buf : List (List Char)) (v : List Char) (hne : buf ≠ []) :
    applyEntry buf ⟨0, v⟩ = entryCore buf (buf.length - 1) v := by
  have hlen : 1 ≤ buf.length := List.length_pos.mpr hne
  have hskip : rangeSkips buf ⟨0, v⟩ = false := by
    simp only [rangeSkips, decide_eq_false_iff_not, not_le]
    omega
  unfold applyEntry entryCore
  rw [hskip]
  rw [show ((⟨0, v⟩ : Entry).line : Int) - 1 = -1 from by norm_num]
  rw [pyGet_neg_one buf hlen]
  cases buf.get? (buf.length - 1) with
  | none => simp
  | some line =>
    by_cases hd : (processLine line v).2 = 0 <;>
      simp [hd, pySet, pySetIdx_neg_one]

theorem entryCore_frame (buf buf₂ : List (List Char)) (j : Nat) (v : List Char) (d : Nat)
    (h : entryCore buf j v = some (buf₂, d)) :
    buf₂.length = buf.length ∧ ∀ i : Nat, i ≠ j → buf₂.get? i = buf.get? i := by
  unfold entryCore at h
  cases hget : buf.get? j with
  | none => rw [hget] at h; simp at h
  | some line =>
    rw [hget] at h
    simp only [Option.map_some', Option.some.injEq] at h
    by_cases hd : (processLine line v).2 = 0
    · rw [if_pos hd] at h
      obtain ⟨rfl, rfl⟩ := Prod.mk.injEq .. ▸ h
      exact ⟨rfl, fun _ _ => rfl⟩
    · rw [if_neg hd] at h
      obtain ⟨rfl, rfl⟩ := Prod.mk.injEq .. ▸ h
      refine ⟨List.length_set .., fun i hi => ?_⟩
      exact List.get?_set_ne _ _ (Ne.symm hi)

theorem entryCore_ne_none (buf : List (List Char)) (j : Nat) (v : List Char)
    (hj : j < buf.length) : entryCore buf j v ≠ none := by
  unfold entryCore
  cases hget : buf.get? j with
  | none =>
    rw [List.get?_eq_none] at hget
    omega
  | some line => simp

theorem applyEntry_nil (e : Entry) :
    applyEntry [] e = if e.line = 0 then none else some ([], 0) := by
  obtain ⟨n, v⟩ := e
  cases n with
  | zero =>
    have hskip : rangeSkips [] ⟨0, v⟩ = false := by
      simp [rangeSkips]
    unfold applyEntry
    rw [hskip]
    rw [show ((⟨0, v⟩ : Entry).line : Int) - 1 = -1 from by norm_num]
    rw [show pyGet ([] : List (List Char)) (-1) = none from by
      rw [pyGet, if_neg (by omega), if_neg (by norm_num)]]
    simp
  | succ m =>
    have hskip : rangeSkips [] ⟨m + 1, v⟩ = true := by
      simp only [rangeSkips, decide_eq_true_eq, List.length_nil]
      omega
    unfold applyEntry
    rw [hskip]
    simp

theorem applyEntry_frame (buf buf₂ : List (List Char)) (e : Entry) (d : Nat)
    (h : applyEntry buf e = some (buf₂, d)) :
    buf₂.length = buf.length ∧
      ∀ j : Nat, j ≠ pySetIdx buf.length ((e.line : Int) - 1) →
        buf₂.get? j = buf.get? j := by
  by_cases hskip : rangeSkips buf e = true
  · unfold applyEntry at h
    rw [hskip] at h
    simp only [if_true, Option.some.injEq] at h
    obtain ⟨rfl, rfl⟩ := Prod.mk.injEq .. ▸ h
    exact ⟨rfl, fun _ _ => rfl⟩
  · have hrange : ¬ buf.length < e.line := fun hc =>
      hskip ((rangeSkips_iff buf e).mpr hc)
    rcases Nat.eq_zero_or_pos e.line with h0 | hpos
    · obtain ⟨n, v⟩ := e
      simp only at h0
      subst h0
      by_cases hbe : buf = []
      · subst hbe
        rw [applyEntry_nil] at h
        simp at h
      · rw [applyEntry_zero buf v hbe] at h
        have hidx : pySetIdx buf.length (((⟨0, v⟩ : Entry).line : Int) - 1) =
            buf.length - 1 := by
          rw [show ((⟨0, v⟩ : Entry).line : Int) - 1 = -1 from by norm_num,
            pySetIdx_neg_one]
        rw [hidx]
        exact entryCore_frame buf buf₂ _ v d h
    · have hle : e.line ≤ buf.length := by omega
      rw [applyEntry_pos buf e hpos hle] at h
      have hidx : pySetIdx buf.length ((e.line : Int) - 1) = e.line - 1 := by
        rw [show (e.line : Int) - 1 = ((e.line - 1 : Nat) : Int) from by omega,
          pySetIdx_natCast]
      rw [hidx]
      exact entryCore_frame buf buf₂ _ e.var d h

theorem applyEntry_nonempty_ne_none (buf : List (List Char)) (e : Entry)
    (hne : buf ≠ []) : applyEntry buf e ≠ none := by
  have hlen : 1 ≤ buf.length := List.length_pos.mpr hne
  rcases Nat.eq_zero_or_pos e.line with h0 | hpos
  · obtain ⟨n, v⟩ := e
    simp only at h0
    subst h0
    rw [applyEntry_zero buf v hne]
    exact entryCore_ne_none buf _ v (by omega)
  · by_cases hle : e.line ≤ buf.length
    · rw [applyEntry_pos buf e hpos hle]
      exact entryCore_ne_none buf _ e.var (by omega)
    · unfold applyEntry
      have : rangeSkips buf e = true := (rangeSkips_iff buf e).mpr (by omega)
      rw [this]
      simp

theorem run_fail : ∀ (es : List Entry) (buf : List (List Char)) (m : Bool)
    (c k : Nat), runEntries buf es m c = (none, k) → buf = [] ∧ k = c
  | [], buf, m, c, k, h => by simp [runEntries] at h
  | e :: es, buf, m, c, k, h => by
    rw [runEntries] at h
    cases happ : applyEntry buf e with
    | none =>
      rw [happ] at h
      simp only [Prod.mk.injEq] at h
      refine ⟨?_, by omega⟩
      by_contra hne
      exact applyEntry_nonempty_ne_none buf e hne happ
    | some r =>
      obtain ⟨buf₂, d⟩ := r
      rw [happ] at h
      obtain ⟨hbuf₂, hk⟩ := run_fail es buf₂ _ _ k h
      subst hbuf₂
      have hlen := (applyEntry_frame buf [] e d happ).1
      have hbuf : buf = [] := List.length_eq_zero.mp (by simpa using hlen.symm)
      subst hbuf
      rw [applyEntry_nil] at happ
      by_cases h0 : e.line = 0
      · rw [if_pos h0] at happ
        exact absurd happ (by simp)
      · rw [if_neg h0] at happ
        simp only [Option.some.injEq, Prod.mk.injEq] at happ
        obtain ⟨-, rfl⟩ := happ
        exact ⟨rfl, by omega⟩

theorem run_mod : ∀ (es : List Entry) (buf : List (List Char)) (m : Bool)
    (c : Nat) (buf₂ : List (List Char)) (m₂ : Bool) (k : Nat),
    runEntries buf es m c = (some (buf₂, m₂), k) →
    (m₂ = true ↔ (m = true ∨ c < k)) ∧ c ≤ k
  | [], buf, m, c, buf₂, m₂, k, h => by
    simp only [runEntries, Prod.mk.injEq, Option.some.injEq] at h
    obtain ⟨⟨rfl, rfl⟩, rfl⟩ := h
    simp
  | e :: es, buf, m, c, buf₂, m₂, k, h => by
    rw [runEntries] at h
    cases happ : applyEntry buf e with
    | none => rw [happ] at h; simp at h
    | some r =>
      obtain ⟨buf', d⟩ := r
      rw [happ] at h
      obtain ⟨hiff, hle⟩ := run_mod es buf' _ _ buf₂ m₂ k h
      refine ⟨?_, by omega⟩
      rw [hiff]
      simp only [Bool.or_eq_true, decide_eq_true_eq]
      constructor
      · rintro ((hm | hd) | hck)
        · exact Or.inl hm
        · exact Or.inr (by omega)
        · exact Or.inr (by omega)
      · rintro (hm | hck)
        · exact Or.inl (Or.inl hm)
        · rcases Nat.eq_zero_or_pos d with rfl | hd
          · exact Or.inr (by omega)
          · exact Or.inl (Or.inr hd)

/-! ### The claims -/

/-- C3 counterexample: the entry with line number 0 is out of the 1-based
range of a one-line buffer, yet it is not skipped: the default-import line is
blanked (through index `-1`) and the edit is counted. -/
theorem out_of_range_skip_cex :
    applyEntry ["import Foo from 'a';".data] ⟨0, "Foo".data⟩ = some ([[]], 1) ∧
      applyEntry ["import Foo from 'a';".data] ⟨0, "Foo".data⟩ ≠
        some (["import Foo from 'a';".data], 0) := by
  decide

/-- C3 (amended): an entry whose line number is strictly greater than the
buffer length is skipped by the range check: the buffer is returned unchanged
and no edit is counted. -/
theorem entry_above_length_skipped (buf : List (List Char)) (e : Entry)
    (h : buf.length < e.line) : applyEntry buf e = some (buf, 0) := by
  unfold applyEntry
  rw [(rangeSkips_iff buf e).mpr h]
  simp

/-- Witness for `entry_above_length_skipped` at a concrete buffer. -/
theorem entry_above_length_skipped_w :
    applyEntry ["const a = 1;".data] ⟨2, "a".data⟩ =
      some (["const a = 1;".data], 0) :=
  entry_above_length_skipped _ _ (by decide)

/-- C4: a line-number-0 diagnostic against a nonempty buffer behaves exactly
like a diagnostic naming the last line (Python index `-1`), so it may edit
and count; and the range check rejects exactly the line numbers strictly
greater than the buffer length. -/
theorem line_zero_edits_last_line (buf : List (List Char)) (v : List Char)
    (hne : buf ≠ []) :
    applyEntry buf ⟨0, v⟩ = applyEntry buf ⟨buf.length, v⟩ ∧
      ∀ n : Nat, rangeSkips buf ⟨n, v⟩ = true ↔ buf.length < n := by
  constructor
  · have hlen : 1 ≤ buf.length := List.length_pos.mpr hne
    rw [applyEntry_zero buf v hne, applyEntry_pos buf ⟨buf.length, v⟩ hlen le_rfl]
  · exact fun n => rangeSkips_iff buf ⟨n, v⟩

/-- Witness for `line_zero_edits_last_line`: on a one-line file the line-0
entry edits the last line and counts. -/
theorem line_zero_edits_last_line_w :
    applyEntry ["import Foo from 'b';".data] ⟨0, "Foo".data⟩ =
      applyEntry ["import Foo from 'b';".data] ⟨1, "Foo".data⟩ ∧
      applyEntry ["import Foo from 'b';".data] ⟨0, "Foo".data⟩ = some ([[]], 1) :=
  ⟨(line_zero_edits_last_line ["import Foo from 'b';".data] "Foo".data (by decide)).1,
   by decide⟩

/-- C5: a file's entries are processed sorted in descending line-number
order (a permutation of the collected entries, whatever order they appeared
in), and one entry's processing keeps the buffer length and touches no line
other than the single index it addresses — so a pending entry with a smaller
line number still addresses the same buffer slot. -/
theorem entries_desc_and_frame (es : List Entry) :
    List.Sorted entryGE (sortDesc es) ∧ (sortDesc es).Perm es ∧
      ∀ (buf : List (List Char)) (e : Entry) (buf₂ : List (List Char)) (d : Nat),
        applyEntry buf e = some (buf₂, d) →
        buf₂.length = buf.length ∧
          ∀ j : Nat, j ≠ pySetIdx buf.length ((e.line : Int) - 1) →
            buf₂.get? j = buf.get? j :=
  ⟨List.sorted_insertionSort entryGE es, List.perm_insertionSort entryGE es,
   fun buf e buf₂ d h => applyEntry_frame buf buf₂ e d h⟩

/-- Witness for `entries_desc_and_frame` at concrete entries and a concrete
edited buffer. -/
theorem entries_desc_and_frame_w :
    List.Sorted entryGE (sortDesc [⟨1, []⟩, ⟨3, []⟩]) ∧
      ([([] : List Char)] : List (List Char)).length =
        [("import Foo from 'c';").data].length :=
  ⟨(entries_desc_and_frame [⟨1, []⟩, ⟨3, []⟩]).1,
   ((entries_desc_and_frame [⟨1, []⟩, ⟨3, []⟩]).2.2
     ["import Foo from 'c';".data] ⟨1, "Foo".data⟩ [[]] 1 (by decide)).1⟩

/-- C8: a file is written back (the filesystem entry replaced) exactly when
at least one edit was counted for it, and when no write happens the
filesystem is unchanged. -/
theorem write_iff_edited (fs : FS) (p : Path) (es : List Entry) :
    ((processOneFile fs p es).wrote = true ↔ 0 < (processOneFile fs p es).count) ∧
      ((processOneFile fs p es).wrote = false → (processOneFile fs p es).fs = fs) := by
  cases hfs : lookupFS fs p with
  | none =>
    have hone : processOneFile fs p es = ⟨fs, 0, false, []⟩ := by
      simp only [processOneFile, hfs]
    rw [hone]
    simp
  | some buf =>
    cases hrun : runEntries buf (sortDesc es) false 0 with
    | mk r k =>
      cases r with
      | none =>
        obtain ⟨-, rfl⟩ := run_fail _ _ _ _ _ hrun
        have hone : processOneFile fs p es = ⟨fs, 0, false, [errMsg p]⟩ := by
          simp only [processOneFile, hfs, hrun]
        rw [hone]
        simp
      | some bm =>
        obtain ⟨buf₂, m⟩ := bm
        obtain ⟨hiff, -⟩ := run_mod _ _ _ _ _ _ _ hrun
        simp only [Bool.false_eq_true, false_or] at hiff
        by_cases hm : m = true
        · have hone : processOneFile fs p es = ⟨updateFS fs p buf₂, k, true, []⟩ := by
            simp only [processOneFile, hfs, hrun, if_pos hm]
          rw [hone]
          simp [hiff.mp hm]
        · have hone : processOneFile fs p es = ⟨fs, k, false, []⟩ := by
            simp only [processOneFile, hfs, hrun, if_neg hm]
          have hk : ¬ 0 < k := fun hc => hm (hiff.mpr hc)
          rw [hone]
          simp [hk]

/-- Witness for `write_iff_edited`: a file with no entries is not written
and the filesystem is untouched. -/
theorem write_iff_edited_w :
    (processOneFile [("c.ts".data, ["const x = 1;".data])] "c.ts".data []).wrote =
      false ∧
      (processOneFile [("c.ts".data, ["const x = 1;".data])] "c.ts".data []).fs =
        [("c.ts".data, ["const x = 1;".data])] :=
  ⟨by decide,
   (write_iff_edited [("c.ts".data, ["const x = 1;".data])] "c.ts".data []).2
     (by decide)⟩

/-- C9: when processing one file raises (the per-file loop ends in the
exception state after counting `k` edits), that file's exception is caught:
a message built from the literal `Error fixing `, the file path and the
exception text is logged, the filesystem is left as it was for the remaining
files, which are still processed, and the `k` edits stay in the total. -/
theorem exception_continues_and_counts (fs : FS) (p : Path)
    (buf : List (List Char)) (es : List Entry) (rest : List (Path × List Entry))
    (k : Nat) (h1 : lookupFS fs p = some buf)
    (h2 : runEntries buf (sortDesc es) false 0 = (none, k)) :
    fixFiles fs ((p, es) :: rest) =
      ⟨(fixFiles fs rest).fs, k + (fixFiles fs rest).count,
        ("Error fixing ".data ++ p ++ ": list index out of range".data) ::
          (fixFiles fs rest).logs⟩ := by
  have hone : processOneFile fs p es = ⟨fs, k, false, [errMsg p]⟩ := by
    simp only [processOneFile, h1, h2]
  rw [fixFiles, hone]
  simp [errMsg]

/-- Witness for `exception_continues_and_counts`: an empty file whose entry
names line 0 raises `IndexError`; the run ends with the message logged and
count 0 from the failed file. -/
theorem exception_continues_and_counts_w :
    fixFiles [("a.ts".data, ([] : List (List Char)))]
      [("a.ts".data, [⟨0, "x".data⟩])] =
      ⟨(fixFiles [("a.ts".data, ([] : List (List Char)))] []).fs,
        0 + (fixFiles [("a.ts".data, ([] : List (List Char)))] []).count,
        ("Error fixing ".data ++ "a.ts".data ++ ": list index out of range".data) ::
          (fixFiles [("a.ts".data, ([] : List (List Char)))] []).logs⟩ :=
  exception_continues_and_counts [("a.ts".data, ([] : List (List Char)))]
    "a.ts".data [] [⟨0, "x".data⟩] [] 0 (by decide) (by decide)

/-- C10: on a line containing `import` and both braces, the default-import
branch is never reached; if the reported identifier is not among the
brace-enclosed names (or no brace group matches), the entry makes no edit
and counts nothing — even when the default-import pattern would match. -/
theorem braces_shadow_default_import (l v : List Char)
    (h1 : hasSub "import".data l = true)
    (h2 : l.contains '\x7b' = true)
    (h3 : l.contains '\x7d' = true)
    (h4 : (braceGroup l).all (fun g => !decide (v ∈ importNames g)) = true) :
    processLine l v = (l, 0) := by
  unfold processLine
  simp only [h1, h2, h3, Bool.and_self, if_true]
  cases hg : braceGroup l with
  | none => rfl
  | some g =>
    rw [hg] at h4
    simp only [Option.all_some, Bool.not_eq_true', decide_eq_false_iff_not] at h4
    simp [h4]

/-- Witness for `braces_shadow_default_import`: a default import line with a
braced comment; the default-import pattern matches the line, yet nothing is
edited and nothing is counted. -/
theorem braces_shadow_default_import_w :
    processLine "import React from 'react'; // \x7b x \x7d".data "React".data =
      ("import React from 'react'; // \x7b x \x7d".data, 0) ∧
      impSearch "React".data "import React from 'react'; // \x7b x \x7d".data =
        true :=
  ⟨braces_shadow_default_import _ _ (by decide) (by decide) (by decide) (by decide),
   by decide⟩

/-- C2 counterexample: with a second brace group on the line (here in a
trailing comment), `re.sub` rewrites that one too: the claim's expectation
that later groups stay unchanged is false. -/
theorem named_import_sub_cex :
    processLine "import \x7b Foo, Bar \x7d from 'baz'; // see \x7bx\x7d".data
        "Foo".data =
      ("import \x7b Bar \x7d from 'baz'; // see \x7b Bar \x7d".data, 1) ∧
      processLine "import \x7b Foo, Bar \x7d from 'baz'; // see \x7bx\x7d".data
          "Foo".data ≠
        ("import \x7b Bar \x7d from 'baz'; // see \x7bx\x7d".data, 1) := by
  decide

/-- C2 (amended): in the named-import branch with the identifier among the
names and a nonempty remainder, the line is rewritten by substituting the
rebuilt `{ name1, name2, ... }` group for every brace group of the line
(`re.sub` replaces all non-overlapping matches), and exactly one edit is
counted. -/
theorem named_import_sub_all_groups (l v g : List Char)
    (h1 : hasSub "import".data l = true)
    (h2 : l.contains '\x7b' = true)
    (h3 : l.contains '\x7d' = true)
    (h4 : braceGroup l = some g)
    (h5 : v ∈ importNames g)
    (h6 : (importNames g).erase v ≠ []) :
    processLine l v =
      (braceSub ('\x7b' :: ' ' ::
        (List.intercalate ", ".data ((importNames g).erase v) ++ [' ', '\x7d'])) l,
       1) := by
  unfold processLine
  simp only [h1, h2, h3, Bool.and_self, if_true]
  rw [h4]
  simp [h5, h6]

/-- Witness for `named_import_sub_all_groups` at the concrete line that
names two imports. -/
theorem named_import_sub_all_groups_w :
    processLine "import \x7b Foo, Bar \x7d from 'baz';".data "Foo".data =
      (braceSub ('\x7b' :: ' ' ::
        (List.intercalate ", ".data
          ((importNames " Foo, Bar ".data).erase "Foo".data) ++ [' ', '\x7d']))
        "import \x7b Foo, Bar \x7d from 'baz';".data, 1) :=
  named_import_sub_all_groups _ _ _ (by decide) (by decide) (by decide) (by decide)
    (by decide) (by decide)

/-- The grouping pass on a single `TS6133` record whose message yields an
identifier. -/
theorem groupEntries_single (p : Path) (L co : Nat) (msg v : List Char)
    (hv : extractVar msg = some v) :
    groupEntries [⟨p, L, co, "TS6133".data, msg⟩] = [(p, [⟨L, v⟩])] := by
  simp [groupEntries, hv, addEntry]

/-- C1 counterexample: a line whose line-number field has a leading zero
matches the grammar and produces exactly one record, but `int()` loses the
zero, so reformatting does not reproduce the line character for character. -/
theorem parse_roundtrip_cex :
    parse_errors ["a(01,2): error TS1: m".data] =
      [⟨"a".data, 1, 2, "TS1".data, "m".data⟩] ∧
      formatRec ⟨"a".data, 1, 2, "TS1".data, "m".data⟩ ≠
        "a(01,2): error TS1: m".data := by
  decide

/-- C1 (amended): for every log line matching the grammar whose line and
column digit substrings are canonical decimal (no leading zeros), the single
record parsed from it reformats to the original line character for
character. -/
theorem parse_roundtrip_canonical (l : List Char) (raw : RawDiag)
    (h : parseLineRaw l = some raw)
    (hline : Nat.toDigits 10 (digitsToNat raw.lineDigits) = raw.lineDigits)
    (hcol : Nat.toDigits 10 (digitsToNat raw.colDigits) = raw.colDigits) :
    parseLine l = some (toRec raw) ∧ formatRec (toRec raw) = l := by
  refine ⟨by simp [parseLine, h], ?_⟩
  have hs := scanLine_sound l [] raw h
  simp only [List.reverse_nil, List.nil_append] at hs
  rw [hs]
  simp only [formatRec, toRec]
  rw [hline, hcol]
  simp [List.append_assoc]

/-- Witness for `parse_roundtrip_canonical` on a concrete diagnostic line. -/
theorem parse_roundtrip_canonical_w :
    parseLine "app.ts(3,7): error TS6133: x is never used".data =
      some (toRec ⟨"app.ts".data, ['3'], ['7'], "6133".data,
        "x is never used".data⟩) ∧
      formatRec (toRec ⟨"app.ts".data, ['3'], ['7'], "6133".data,
        "x is never used".data⟩) =
        "app.ts(3,7): error TS6133: x is never used".data :=
  parse_roundtrip_canonical _ _ (by decide) (by decide) (by decide)

/-- C6: a file whose line `L` is the two-name import and a single `TS6133`
diagnostic reporting `Foo` unused at `L`: the fixer rewrites exactly that
line to the one-name import (all other lines kept by `List.set`), writes the
file back, and returns one edit. -/
theorem foo_bar_import_fix (fs : FS) (p : Path) (buf : List (List Char))
    (L co : Nat) (hL : 1 ≤ L) (hfile : lookupFS fs p = some buf)
    (hline : buf.get? (L - 1) = some "import \x7b Foo, Bar \x7d from 'baz';".data) :
    fix_unused_imports fs
      [⟨p, L, co, "TS6133".data,
        "'Foo' is declared but its value is never read.".data⟩] =
      ⟨updateFS fs p (buf.set (L - 1) "import \x7b Bar \x7d from 'baz';".data),
        1, []⟩ := by
  have hlt : L - 1 < buf.length := by
    by_contra hc
    rw [List.get?_eq_none.mpr (by omega)] at hline
    exact Option.noConfusion hline
  have happ : applyEntry buf ⟨L, "Foo".data⟩ =
      some (buf.set (L - 1) "import \x7b Bar \x7d from 'baz';".data, 1) := by
    rw [applyEntry_pos buf ⟨L, "Foo".data⟩ hL (show L ≤ buf.length by omega)]
    unfold entryCore
    rw [hline]
    simp only [Option.map_some']
    rw [show processLine "import \x7b Foo, Bar \x7d from 'baz';".data "Foo".data =
        ("import \x7b Bar \x7d from 'baz';".data, 1) from by decide]
    norm_num
  unfold fix_unused_imports
  rw [groupEntries_single p L co _ _
    (show extractVar "'Foo' is declared but its value is never read.".data =
      some "Foo".data from by decide)]
  have hrun : runEntries buf (sortDesc [⟨L, "Foo".data⟩]) false 0 =
      (some (buf.set (L - 1) "import \x7b Bar \x7d from 'baz';".data, true), 1) := by
    rw [show sortDesc [(⟨L, "Foo".data⟩ : Entry)] = [⟨L, "Foo".data⟩] from rfl]
    rw [runEntries, happ]
    simp [runEntries]
  have hone : processOneFile fs p [⟨L, "Foo".data⟩] =
      ⟨updateFS fs p (buf.set (L - 1) "import \x7b Bar \x7d from 'baz';".data),
        1, true, []⟩ := by
    simp [processOneFile, hfile, hrun]
  rw [fixFiles, hone]
  simp [fixFiles]

/-- Witness for `foo_bar_import_fix` on a concrete one-line file. -/
theorem foo_bar_import_fix_w :
    fix_unused_imports
      [("a.ts".data, ["import \x7b Foo, Bar \x7d from 'baz';".data])]
      [⟨"a.ts".data, 1, 5, "TS6133".data,
        "'Foo' is declared but its value is never read.".data⟩] =
      ⟨updateFS [("a.ts".data, ["import \x7b Foo, Bar \x7d from 'baz';".data])]
        "a.ts".data
        (["import \x7b Foo, Bar \x7d from 'baz';".data].set 0
          "import \x7b Bar \x7d from 'baz';".data), 1, []⟩ :=
  foo_bar_import_fix [("a.ts".data, ["import \x7b Foo, Bar \x7d from 'baz';".data])]
    "a.ts".data ["import \x7b Foo, Bar \x7d from 'baz';".data] 1 5
    (by decide) (by decide) (by decide)

/-- C7: a file whose line `L` is the destructuring declaration and a single
`TS6133` diagnostic reporting `a` unused at `L`: the fixer leaves the whole
filesystem byte-for-byte unchanged (no write at all) and counts no edit. -/
theorem destructuring_left_unchanged (fs : FS) (p : Path) (buf : List (List Char))
    (L co : Nat) (hL : 1 ≤ L) (hfile : lookupFS fs p = some buf)
    (hline : buf.get? (L - 1) = some "const \x7b a, b \x7d = obj;".data) :
    fix_unused_imports fs
      [⟨p, L, co, "TS6133".data,
        "'a' is declared but its value is never read.".data⟩] =
      ⟨fs, 0, []⟩ := by
  have hlt : L - 1 < buf.length := by
    by_contra hc
    rw [List.get?_eq_none.mpr (by omega)] at hline
    exact Option.noConfusion hline
  have happ : applyEntry buf ⟨L, "a".data⟩ = some (buf, 0) := by
    rw [applyEntry_pos buf ⟨L, "a".data⟩ hL (show L ≤ buf.length by omega)]
    unfold entryCore
    rw [hline]
    simp only [Option.map_some']
    rw [show processLine "const \x7b a, b \x7d = obj;".data "a".data =
        ("const \x7b a, b \x7d = obj;".data, 0) from by decide]
    norm_num
  unfold fix_unused_imports
  rw [groupEntries_single p L co _ _
    (show extractVar "'a' is declared but its value is never read.".data =
      some "a".data from by decide)]
  have hrun : runEntries buf (sortDesc [⟨L, "a".data⟩]) false 0 =
      (some (buf, false), 0) := by
    rw [show sortDesc [(⟨L, "a".data⟩ : Entry)] = [⟨L, "a".data⟩] from rfl]
    rw [runEntries, happ]
    simp [runEntries]
  have hone : processOneFile fs p [⟨L, "a".data⟩] = ⟨fs, 0, false, []⟩ := by
    simp [processOneFile, hfile, hrun]
  rw [fixFiles, hone]
  simp [fixFiles]

/-- Witness for `destructuring_left_unchanged` on a concrete one-line file. -/
theorem destructuring_left_unchanged_w :
    fix_unused_imports [("b.ts".data, ["const \x7b a, b \x7d = obj;".data])]
      [⟨"b.ts".data, 1, 9, "TS6133".data,
        "'a' is declared but its value is never read.".data⟩] =
      ⟨[("b.ts".data, ["const \x7b a, b \x7d = obj;".data])], 0, []⟩ :=
  destructuring_left_unchanged [("b.ts".data, ["const \x7b a, b \x7d = obj;".data])]
    "b.ts".data ["const \x7b a, b \x7d = obj;".data] 1 9
    (by decide) (by decide) (by decide)
